import Mathlib

/-!
Verification development for the gslog structured-logging handler.

The Go sources are embedded shallowly: pure functions become Lean
functions, protobuf `Struct` field maps become association lists with
replace-or-append insertion (key-unique, matching Go map semantics up to
iteration order), and the handler's in-place mutations through cloned
pointers become explicit state passing.  Machine integers (`slog.Level`,
`logging.Severity`) are modelled as `Int`; Go's `/` on `int` truncates
toward zero, which is `Int.tdiv`.
-/

set_option autoImplicit false

namespace Gslog

/-! ## Levels and severities

`slog` levels (from Go's `log/slog` and the repository's exported level
constants) and Google Cloud Logging severity tiers (from the
`cloud.google.com/go/logging` collaborator library, whose documented
constants are Default 0, Debug 100, Info 200, Notice 300, Warning 400,
Error 500, Critical 600, Alert 700, Emergency 800). -/

def LevelDebug : Int := -4
def LevelInfo : Int := 0
def LevelNotice : Int := 2
def LevelWarn : Int := 4
def LevelError : Int := 8
def LevelCritical : Int := 12
def LevelAlert : Int := 16
def LevelEmergency : Int := 20

def SeverityDefault : Int := 0
def SeverityDebug : Int := 100
def SeverityInfo : Int := 200
def SeverityNotice : Int := 300
def SeverityWarning : Int := 400
def SeverityError : Int := 500
def SeverityCritical : Int := 600
def SeverityAlert : Int := 700
def SeverityEmergency : Int := 800

/-- Embeds `levelToSeverity` (and the identical `internal/level.ToSeverity`):
`severity := logging.Severity((int(level) + 8) / 4 * 100)`, and if
`slog.LevelInfo < level` the result is `severity + 100`.  Go's integer
division truncates toward zero, hence `Int.tdiv`. -/
def levelToSeverity (level : Int) : Int :=
  let severity := Int.tdiv (level + 8) 4 * 100
  if LevelInfo < level then severity + 100 else severity

/-! ## Timestamp formatting

`attr.TimeToRFC3339InMs` formats a `time.Time` by truncating it to
millisecond resolution, adding a tenth of a millisecond so that
`time.RFC3339Nano` (which trims trailing fractional zeros) prints exactly
four fractional digits, formatting, deleting the fourth fractional digit
(a byte-level splice at a fixed offset), and wrapping the result in double
quotes.  A `time.Time` is modelled at the standard-library boundary by its
civil fields as Go's formatter would decompose it (the Go formatter prints
each field zero-padded: year to four digits, the others to two) together
with the nanosecond field and the zone offset in minutes (`0` prints `Z`).
Strings are built as `List Char`, mirroring the `[]byte` buffer. -/

structure GoTime where
  year : Nat
  month : Nat
  day : Nat
  hour : Nat
  minute : Nat
  second : Nat
  nanos : Nat
  offsetMinutes : Int

/-- Two-digit zero-padded decimal, as Go's `appendInt(..., 2)` prints a
normalized civil field. -/
def pad2 (n : Nat) : List Char := [Nat.digitChar (n / 10 % 10), Nat.digitChar (n % 10)]

/-- Four-digit zero-padded decimal, as Go prints the year of `time.Time`
values in the four-digit range. -/
def pad4 (n : Nat) : List Char :=
  [Nat.digitChar (n / 1000 % 10), Nat.digitChar (n / 100 % 10),
   Nat.digitChar (n / 10 % 10), Nat.digitChar (n % 10)]

/-- The nine decimal digits of a nanosecond count, most significant first. -/
def nineDigits (n : Nat) : List Char :=
  [Nat.digitChar (n / 100000000 % 10), Nat.digitChar (n / 10000000 % 10),
   Nat.digitChar (n / 1000000 % 10), Nat.digitChar (n / 100000 % 10),
   Nat.digitChar (n / 10000 % 10), Nat.digitChar (n / 1000 % 10),
   Nat.digitChar (n / 100 % 10), Nat.digitChar (n / 10 % 10),
   Nat.digitChar (n % 10)]

/-- Fractional-second part under `time.RFC3339Nano`: a dot followed by the
nanosecond digits with trailing zeros trimmed, or nothing at all when the
nanosecond field is zero. -/
def fracRFC3339Nano (n : Nat) : List Char :=
  if n = 0 then []
  else Char.ofNat 46 :: ((nineDigits n).reverse.dropWhile (fun c => c == Char.ofNat 48)).reverse

/-- Zone suffix under `time.RFC3339Nano`: `Z` for zero offset, otherwise a
sign followed by `hh:mm`. -/
def tzSuffix (offsetMinutes : Int) : List Char :=
  if offsetMinutes = 0 then [Char.ofNat 90]
  else
    let m := offsetMinutes.natAbs
    (if offsetMinutes < 0 then Char.ofNat 45 else Char.ofNat 43) ::
      (pad2 (m / 60) ++ Char.ofNat 58 :: pad2 (m % 60))

/-- The `time.RFC3339Nano` rendering of a civil time, at the Go
standard-library boundary. -/
def formatRFC3339Nano (t : GoTime) : List Char :=
  pad4 t.year ++ Char.ofNat 45 :: pad2 t.month ++ Char.ofNat 45 :: pad2 t.day ++
    Char.ofNat 84 :: pad2 t.hour ++ Char.ofNat 58 :: pad2 t.minute ++
    Char.ofNat 58 :: pad2 t.second ++ fracRFC3339Nano t.nanos ++
    tzSuffix t.offsetMinutes

/-- Embeds `attr.TimeToRFC3339InMs`: append an opening quote, truncate the
time to a millisecond and add a tenth of a millisecond, format with
`time.RFC3339Nano`, splice out the byte at offset `1 + 23` (the fourth
fractional digit), and append a closing quote. -/
def TimeToRFC3339InMs (t : GoTime) : String :=
  let t := { t with nanos := t.nanos / 1000000 * 1000000 + 100000 }
  let buf : List Char := Char.ofNat 34 :: formatRFC3339Nano t
  let buf := buf.take 24 ++ buf.drop 25
  ⟨buf ++ [Char.ofNat 34]⟩

/-! ## Structured values (`structpb.Value` / `structpb.Struct`)

A protobuf `Struct` is a key-unique `map[string]*Value`; it is modelled as
an association list written with replace-or-append insertion, so the
contents agree with the Go map (iteration order of a Go map is
unobservable in the final map contents because keys are unique). -/

mutual
/-- Embeds `structpb.Value`: null, number (float64), string, bool, or nested
struct.  (The list kind is never produced by this code base.) -/
inductive SValue : Type
  | null : SValue
  | num : Float → SValue
  | str : String → SValue
  | bool : Bool → SValue
  | object : SFields → SValue
/-- The `Fields` map of a `structpb.Struct`, as an association list. -/
inductive SFields : Type
  | nil : SFields
  | cons : String → SValue → SFields → SFields
end

/-- Map lookup, `payload.Fields[k]`. -/
def lookupField (k : String) : SFields → Option SValue
  | .nil => none
  | .cons key v rest => if key = k then some v else lookupField k rest

/-- Map store, `payload.Fields[k] = v`: replace the existing entry for `k`
or append a new one. -/
def setField (fs : SFields) (k : String) (v : SValue) : SFields :=
  match fs with
  | .nil => .cons k v .nil
  | .cons key w rest =>
      if key = k then .cons key v rest else .cons key w (setField rest k v)

/-- Map delete, `delete(payload.Fields, k)`. -/
def deleteField (k : String) : SFields → SFields
  | .nil => .nil
  | .cons key v rest =>
      if key = k then deleteField k rest else .cons key v (deleteField k rest)

/-- Embeds `len(s.Fields)`. -/
def fieldsLen : SFields → Nat
  | .nil => 0
  | .cons _ _ rest => fieldsLen rest + 1

/-- Embeds the loop `for k, v := range src, dst.Fields[k] = v`. -/
def mergeFields (fs : SFields) : SFields → SFields
  | .nil => fs
  | .cons k v rest => mergeFields (setField fs k v) rest

/-- Embeds `GetStructValue().GetFields()` of a value: the nested fields when the
value is a struct, and the empty map otherwise (the protobuf getters are
nil-safe). -/
def structFields : SValue → SFields
  | .object fs => fs
  | _ => .nil

/-- Embeds `p.Fields[k].GetStructValue()` for an optional value. -/
def structFieldsOfOpt : Option SValue → SFields
  | some v => structFields v
  | none => .nil

/-! ## slog attribute values (`slog.Value` / `slog.Attr`)

`slog.Value` is a tagged union over the kinds the resolver inspects.  The
open-ended `KindAny` is modelled by two constructors: `anyNil` for a Go
`nil` (also the zero `slog.Value`, whose `Any()` is `nil`), and `anyVal r`
for an opaque application value together with the outcome `r` of
`attr.NewAny`'s ordered capability probes (error-but-not-JSON-marshaler to
its message string; directly mappable to a `structpb` value; JSON
marshal/unmarshal round trip; `none` when even JSON marshaling fails, as
for cyclic values).  `lazy` is a `slog.LogValuer` wrapper, forced by
`Value.Resolve`. -/

mutual
/-- Embeds `slog.Value`. -/
inductive AValue : Type
  | str : String → AValue
  | int : Int → AValue
  | uint : Nat → AValue
  | float : Float → AValue
  | bool : Bool → AValue
  | duration : Int → AValue
  | time : GoTime → AValue
  | group : AttrList → AValue
  | anyNil : AValue
  | anyVal : Option SValue → AValue
  | lazy : AValue → AValue
/-- A `[]slog.Attr`: a list of key/value pairs. -/
inductive AttrList : Type
  | nil : AttrList
  | cons : String → AValue → AttrList → AttrList
end

/-- A single `slog.Attr`. -/
abbrev Attr := String × AValue

/-- Embeds `slog.Value.Resolve`: repeatedly force `LogValuer` wrappers; all other
kinds resolve to themselves. -/
def AValue.resolve : AValue → AValue
  | .lazy v => v.resolve
  | v => v

/-- Embeds `v.Any() == nil`: true exactly for a `nil` any (including the zero
`slog.Value`). -/
def AValue.isNilAny : AValue → Bool
  | .anyNil => true
  | _ => false

/-- Embeds `v.Kind() == slog.KindGroup`. -/
def AValue.kindIsGroup : AValue → Bool
  | .group _ => true
  | _ => false

/-- Embeds `len(v.Group()) == 0`. -/
def AttrList.isEmpty : AttrList → Bool
  | .nil => true
  | .cons _ _ _ => false

/-- Embeds `attr.ValToStruct` restricted to the non-recursive kinds (everything
except groups; a still-lazy `KindLogValuer` value falls to the default
branch and maps to nothing).  Int64, Uint64 and Duration widen to float64. -/
def valToStructLeaf : AValue → Option SValue
  | .str s => some (.str s)
  | .int i => some (.num (Float.ofInt i))
  | .uint u => some (.num (Float.ofNat u))
  | .float f => some (.num f)
  | .bool b => some (.bool b)
  | .duration d => some (.num (Float.ofInt d))
  | .time t => some (.str (TimeToRFC3339InMs t))
  | .anyNil => some .null
  | .anyVal r => r
  | .group _ => none
  | .lazy _ => none

mutual
/-- Embeds `attr.DecorateWith`, restructured for structural recursion: the
top-level `Resolve` of a `lazy` value is performed by `decorateLazy`, and
the group case of `ValToStruct` is inlined.  `decorateWith_eq` proves this
equal to the literal source shape `decorateWithSpec`. -/
def decorateWithCore (fs : SFields) (k : String) : AValue → SFields
  | .lazy w => decorateLazy fs k w
  | .group g =>
      if g.isEmpty then fs
      else
        let val := SValue.object (decorateList .nil g)
        if k = "" then mergeFields fs (structFields val) else setField fs k val
  | v =>
      if k = "" ∧ v.isNilAny then fs
      else
        match valToStructLeaf v with
        | none => fs
        | some val => setField fs k val
/-- The continuation of `decorateWithCore` once the original value is known
to be a `LogValuer` wrapper: keep forcing; since the original attribute's
kind is `KindLogValuer`, the inline-group merge branch is not taken even
for an empty key. -/
def decorateLazy (fs : SFields) (k : String) : AValue → SFields
  | .lazy w => decorateLazy fs k w
  | .group g =>
      if g.isEmpty then fs
      else setField fs k (SValue.object (decorateList .nil g))
  | v =>
      if k = "" ∧ v.isNilAny then fs
      else
        match valToStructLeaf v with
        | none => fs
        | some val => setField fs k val
/-- The loop of `attr.NewGroupValue`: decorate each child attribute in
sequence into the accumulating struct. -/
def decorateList (fs : SFields) : AttrList → SFields
  | .nil => fs
  | .cons k v rest => decorateList (decorateWithCore fs k v) rest
end

/-- Embeds `attr.NewGroupValue`: a struct built by decorating each child. -/
def NewGroupValue (g : AttrList) : SValue := .object (decorateList .nil g)

/-- Embeds `attr.ValToStruct`: the `spb.Value` equivalent of a `slog.Value`, with
`ok = false` encoded as `none`.  An empty group maps to nothing; a
non-empty group maps to `NewGroupValue`. -/
def ValToStruct : AValue → Option SValue
  | .group g => if g.isEmpty then none else some (NewGroupValue g)
  | v => valToStructLeaf v

/-- Embeds `attr.DecorateWith` in the literal shape of the source: resolve the
value; drop the attribute when its key is empty and the resolved value is
a nil any; map the resolved value with `ValToStruct`, dropping the
attribute when that fails; merge field-by-field when the key is empty and
the original value is a group, otherwise store under the key. -/
def DecorateWith (fs : SFields) (a : Attr) : SFields :=
  let rv := a.2.resolve
  if a.1 = "" ∧ rv.isNilAny then fs
  else
    match ValToStruct rv with
    | none => fs
    | some val =>
        if a.1 = "" ∧ a.2.kindIsGroup then mergeFields fs (structFields val)
        else setField fs a.1 val

/-! ## Attribute rewrite pipeline (`attr.WrapAttrMapper`) -/

/-- Embeds `attr.Mapper`: rewrites one non-group attribute, given the group path. -/
abbrev Mapper := List String → Attr → Attr

mutual
/-- The recursive closure built by `attr.WrapAttrMapper`: a group attribute
recurses into each child with the group key appended to the path, a mapped
child with empty key and nil value is elided, a group whose children are
all elided collapses to the zero attribute, and any non-group attribute is
passed to the wrapped mapper. -/
def wrappedMap (m : Mapper) (gs : List String) (k : String) (v : AValue) : Attr :=
  match v with
  | .group g =>
      match wrappedList m (gs ++ [k]) g with
      | .nil => ("", .anyNil)
      | g2 => (k, .group g2)
  | _ => m gs (k, v)
/-- The child loop of the wrapped mapper: map each child, dropping the
elided ones. -/
def wrappedList (m : Mapper) (gs : List String) : AttrList → AttrList
  | .nil => .nil
  | .cons ck cv rest =>
      let mapped := wrappedMap m gs ck cv
      let rest2 := wrappedList m gs rest
      if mapped.1 = "" ∧ mapped.2.isNilAny then rest2
      else .cons mapped.1 mapped.2 rest2
end

/-- Embeds `attr.WrapAttrMapper`: `nil` maps to `nil` (the pipeline step is
skipped entirely), otherwise the recursive wrapped closure. -/
def WrapAttrMapper : Option Mapper → Option Mapper
  | none => none
  | some m => some (fun gs a => wrappedMap m gs a.1 a.2)

/-- Membership of an attribute in a `[]slog.Attr`. -/
def AttrList.Mem (a : Attr) : AttrList → Prop
  | .nil => False
  | .cons k v rest => a = (k, v) ∨ AttrList.Mem a rest

/-- The canonical elided marker: empty key and nil resolved value. -/
def attrElided (a : Attr) : Prop := a.1 = "" ∧ a.2.isNilAny

/-! ## Handler state machine (`handler.go`)

`GcpHandler` holds its accumulated payload tree and open-group path;
`proto.Clone` gives the Go code value semantics at every mutation
boundary, so the clone steps are the identity in this functional
embedding.  `fromPath` returns a pointer to the struct at the open-group
path and callers mutate through it; that locate-then-mutate pattern is
`updateAtPath`.  On a path whose groups are missing or not struct-valued
the Go code dereferences a nil pointer and panics; the total model returns
the tree unchanged there, and the theorems carry the path invariant the
exported constructors maintain. -/

structure SourceLocation where
  file : String
  line : Int
  function : String

/-- One `slog.Record`, with the source location its program counter would
resolve to. -/
structure Record where
  time : GoTime
  message : String
  level : Int
  attrs : AttrList
  source : SourceLocation

/-- One `logging.Entry`, restricted to the fields this code base sets. -/
structure Entry where
  timestamp : GoTime
  severity : Int
  payload : SFields
  labels : List (String × String)
  sourceLocation : Option SourceLocation

/-- Embeds `options.EntryAugmentor`: may rewrite the entry, given the open-group
path (the ambient context argument is opaque and dropped). -/
abbrev EntryAugmentor := List String → Entry → Entry

/-- Embeds `GcpHandler`. -/
structure Handler where
  level : Int
  addSource : Bool
  entryAugmentors : List EntryAugmentor
  replaceAttr : Option Mapper
  payload : SFields
  groups : List String

/-- The key used for the message of the log call. -/
def MessageKey : String := "message"

/-- Embeds `newGcpLoggerWithOptions`: empty payload, no open groups, and the
configured mapper wrapped by `WrapAttrMapper`. -/
def NewGcpHandler (level : Int) (addSource : Bool)
    (augmentors : List EntryAugmentor) (replaceAttr : Option Mapper) : Handler :=
  { level := level
    addSource := addSource
    entryAugmentors := augmentors
    replaceAttr := WrapAttrMapper replaceAttr
    payload := .nil
    groups := [] }

/-- Embeds `GcpHandler.Enabled`. -/
def Enabled (h : Handler) (level : Int) : Prop := h.level ≤ level

/-- The payload contents reached by descending a group path, reading each
step through the nil-safe struct getter (`fromPath` without the mutation). -/
def descendFields (fs : SFields) : List String → SFields
  | [] => fs
  | g :: rest => descendFields (structFieldsOfOpt (lookupField g fs)) rest

/-- Embeds `fromPath` composed with the caller's in-place mutation of the struct
it returns: rewrite the fields at the end of the path.  (On a broken path
the Go code panics; here the tree is returned unchanged.) -/
def updateAtPath (fs : SFields) (path : List String) (upd : SFields → SFields) : SFields :=
  match path with
  | [] => upd fs
  | g :: rest =>
      match lookupField g fs with
      | some (.object inner) => setField fs g (.object (updateAtPath inner rest upd))
      | _ => fs

/-- Apply the handler's (optional) rewrite mapper to one attribute, as the
`if h.replaceAttr != nil` guards do. -/
def applyMapper (ra : Option Mapper) (gs : List String) (a : Attr) : Attr :=
  match ra with
  | none => a
  | some m => m gs a

/-- The record/`WithAttrs` attribute loop: rewrite (when configured) and
decorate each attribute in order into the given fields. -/
def decorateAll (ra : Option Mapper) (gs : List String) (fs : SFields) :
    AttrList → SFields
  | .nil => fs
  | .cons k v rest =>
      decorateAll ra gs (DecorateWith fs (applyMapper ra gs (k, v))) rest

/-- Embeds `GcpHandler.WithAttrs`: clone, then decorate each rewritten attribute
into the object at the open-group path. -/
def WithAttrs (h : Handler) (attrs : AttrList) : Handler :=
  { h with payload := (updateAtPath h.payload h.groups
      (fun cur => decorateAll h.replaceAttr h.groups cur attrs)) }

/-- Embeds `GcpHandler.WithGroup`: an empty name returns the handler unchanged;
otherwise clone, store a fresh empty object under the name at the current
path, and append the name to the open-group path. -/
def WithGroup (h : Handler) (name : String) : Handler :=
  if name = "" then h
  else
    { h with
      payload := (updateAtPath h.payload h.groups
        (fun cur => setField cur name (.object .nil)))
      groups := h.groups ++ [name] }

/-- Embeds `setAndClean`: descend the group path, apply the record decoration at
the end, and on the way back delete every group on the path whose fields
ended up empty. -/
def setAndClean (groups : List String) (payload : SFields)
    (decorate : SFields → SFields) : SFields :=
  match groups with
  | [] => decorate payload
  | g :: rest =>
      let s := structFieldsOfOpt (lookupField g payload)
      let s2 := setAndClean rest s decorate
      if fieldsLen s2 = 0 then deleteField g payload
      else setField payload g (.object s2)

/-- Which sink method `Handle` invokes. -/
inductive SinkPath : Type
  | sync : SinkPath
  | buffered : SinkPath
deriving DecidableEq

/-- The observable outcome of one `Handle` call: the entry handed to the
sink, the sink path taken, what was printed to the process error stream,
and the returned error. -/
structure HandleResult where
  entry : Entry
  path : SinkPath
  stderr : Option String
  returned : Option String

/-- The payload built by one `Handle` call: clone the persistent tree
(value semantics here), write the rewritten record attributes under the
open-group path with `setAndClean`, then synthesize the message attribute,
rewrite it with a `nil` group path, and decorate it into the payload
root. -/
def handlePayload (h : Handler) (r : Record) : SFields :=
  let payload2 := setAndClean h.groups h.payload
    (fun fs => decorateAll h.replaceAttr h.groups fs r.attrs)
  let a := applyMapper h.replaceAttr [] (MessageKey, AValue.str r.message)
  DecorateWith payload2 a

/-- The `logging.Entry` as first assembled by `Handle`: payload, UTC
timestamp, mapped severity, ambient labels, and the source location when
configured. -/
def handleBaseEntry (h : Handler) (ctxLabels : List (String × String))
    (r : Record) : Entry :=
  { timestamp := r.time
    severity := levelToSeverity r.level
    payload := handlePayload h r
    labels := ctxLabels
    sourceLocation := if h.addSource then some r.source else none }

/-- The entry after every configured augmentor ran, in registration order,
each receiving the open-group path. -/
def handleEntry (h : Handler) (ctxLabels : List (String × String))
    (r : Record) : Entry :=
  h.entryAugmentors.foldl (fun acc b => b h.groups acc)
    (handleBaseEntry h ctxLabels r)

/-- Embeds `GcpHandler.Handle`: build the entry through the stages above, then
send synchronously when the severity is at least critical (printing a
diagnostic to stderr when the sink reports an error) and enqueue on the
buffered path otherwise.  The call always returns `nil`
(`returned = none`).  `logSync` is the sink's synchronous-send result and
`ctxLabels` the ambient label mapping. -/
def Handle (h : Handler) (logSync : Entry → Option String)
    (ctxLabels : List (String × String)) (r : Record) : HandleResult :=
  if SeverityCritical ≤ (handleEntry h ctxLabels r).severity then
    { entry := handleEntry h ctxLabels r
      path := .sync
      stderr := (logSync (handleEntry h ctxLabels r)).map
        (fun err => "error logging: " ++ r.message ++ "\n" ++ err)
      returned := none }
  else
    { entry := handleEntry h ctxLabels r
      path := .buffered
      stderr := none
      returned := none }

/-- Stated from the spec's words, for comparison with `setAndClean`:
the record's writes produce a new inner object at the end of the
open-group path (here passed already computed, as `inner`), and on the way
back up every group on that path whose fields ended up empty is deleted
from its parent. -/
def writeAtPathPruned (inner : SFields) : List String → SFields → SFields
  | [], _ => inner
  | g :: rest, fs =>
      let s2 := writeAtPathPruned inner rest (structFieldsOfOpt (lookupField g fs))
      if fieldsLen s2 = 0 then deleteField g fs else setField fs g (.object s2)

/-! ## Key-occurrence predicates

`sfieldsMentions k` holds when `k` occurs as a field name anywhere in a
payload tree; `attrsMention k` holds when `k` occurs as an attribute key
anywhere in an attribute list, including inside nested groups, values
carried by opaque any-values, and `LogValuer` wrappers.  These state the
copy-on-write isolation claim: a handler can only emit keys that come
from its own tree, its own attribute arguments, the record, or the
message. -/

mutual
/-- Does `k` occur as a field name anywhere inside this value? -/
def svalMentions (k : String) : SValue → Bool
  | .object fs => sfieldsMentions k fs
  | _ => false
/-- Does `k` occur as a field name anywhere inside these fields? -/
def sfieldsMentions (k : String) : SFields → Bool
  | .nil => false
  | .cons key v rest =>
      key == k || svalMentions k v || sfieldsMentions k rest
end

mutual
/-- Does `k` occur as a key anywhere inside this attribute value? -/
def avalMentions (k : String) : AValue → Bool
  | .group g => attrsMention k g
  | .anyVal (some sv) => svalMentions k sv
  | .lazy w => avalMentions k w
  | _ => false
/-- Does `k` occur as a key anywhere inside this attribute list? -/
def attrsMention (k : String) : AttrList → Bool
  | .nil => false
  | .cons key v rest =>
      key == k || avalMentions k v || attrsMention k rest
end

/-- Does `k` occur in this attribute, as its key or inside its value? -/
def attrMentions (k : String) (a : Attr) : Bool :=
  a.1 == k || avalMentions k a.2

/-- A rewrite mapper configuration that cannot introduce the key `k` out
of nowhere: mapping an attribute free of `k` yields an attribute free of
`k`.  The absent mapper satisfies this trivially. -/
def MapperPreserves (ra : Option Mapper) (k : String) : Prop :=
  ∀ (gs : List String) (a : Attr),
    attrMentions k a = false → attrMentions k (applyMapper ra gs a) = false

/-- Three-digit zero-padded milliseconds, used to state what the formatted
fractional part must look like. -/
def msPad3 (m : Nat) : List Char :=
  [Nat.digitChar (m / 100 % 10), Nat.digitChar (m / 10 % 10), Nat.digitChar (m % 10)]

/-- The date-time prefix (through seconds) shared by the implementation and
the statement of the timestamp-format claims. -/
def dateTimePart (t : GoTime) : List Char :=
  pad4 t.year ++ Char.ofNat 45 :: pad2 t.month ++ Char.ofNat 45 :: pad2 t.day ++
    Char.ofNat 84 :: pad2 t.hour ++ Char.ofNat 58 :: pad2 t.minute ++
    Char.ofNat 58 :: pad2 t.second

end Gslog

/-- C1: for every slog level `L`, the severity is `((L + 8) / 4) * 100` with
division truncating toward zero, plus an extra 100 exactly when `L` is
strictly above the info level (0); level -8 maps to 0, debug (-4) maps to
one tier (100) below the info tier, info (0) maps to the info tier 200, and
the tiers are reproduced up through emergency (20) mapping to 800. -/
theorem c1_severity_formula :
    (∀ L : Int, Gslog.levelToSeverity L =
      Int.tdiv (L + 8) 4 * 100 + (if Gslog.LevelInfo < L then 100 else 0)) ∧
    Gslog.levelToSeverity (-8) = 0 ∧
    Gslog.levelToSeverity Gslog.LevelDebug = Gslog.SeverityInfo - 100 ∧
    Gslog.levelToSeverity Gslog.LevelInfo = Gslog.SeverityInfo ∧
    Gslog.levelToSeverity Gslog.LevelNotice = Gslog.SeverityNotice ∧
    Gslog.levelToSeverity Gslog.LevelWarn = Gslog.SeverityWarning ∧
    Gslog.levelToSeverity Gslog.LevelError = Gslog.SeverityError ∧
    Gslog.levelToSeverity Gslog.LevelCritical = Gslog.SeverityCritical ∧
    Gslog.levelToSeverity Gslog.LevelAlert = Gslog.SeverityAlert ∧
    Gslog.levelToSeverity Gslog.LevelEmergency = Gslog.SeverityEmergency := by
  refine ⟨fun L => ?_, by decide, by decide, by decide, by decide, by decide,
    by decide, by decide, by decide, by decide⟩
  simp only [Gslog.levelToSeverity]
  split <;> simp_all

/-- C2 (counterexample): the claim that the named debug level maps to
severity 200 is false: the code maps debug (-4) to severity 100
(`logging.Debug`), one tier below info. -/
theorem c2_debug_not_200 :
    ¬ Gslog.levelToSeverity Gslog.LevelDebug = 200 := by decide

/-- C2 (amended): level -8 maps to severity 0, debug (-4) maps to 100 (not
200), info (0) maps to 200; every level at or below info maps without the
+100 bump and every level strictly above info receives it, so info yields
its base tier 200 and info+1 yields that base tier plus 100, namely 300. -/
theorem c2_severity_anchors :
    Gslog.levelToSeverity (-8) = 0 ∧
    Gslog.levelToSeverity Gslog.LevelDebug = 100 ∧
    Gslog.levelToSeverity Gslog.LevelInfo = 200 ∧
    Gslog.levelToSeverity (Gslog.LevelInfo + 1) = 300 ∧
    (∀ L : Int, Gslog.levelToSeverity L = Int.tdiv (L + 8) 4 * 100 +
      (if Gslog.LevelInfo < L then 100 else 0)) := by
  refine ⟨by decide, by decide, by decide, by decide, fun L => ?_⟩
  simp only [Gslog.levelToSeverity]
  split <;> simp_all

theorem dateTimePart_length (t : Gslog.GoTime) :
    (Gslog.dateTimePart t).length = 19 := by
  simp [Gslog.dateTimePart, Gslog.pad4, Gslog.pad2]

theorem fracRFC3339Nano_ms (n : Nat) :
    Gslog.fracRFC3339Nano (n / 1000000 * 1000000 + 100000) =
      Char.ofNat 46 ::
        (Gslog.msPad3 (n / 1000000 % 1000) ++ [Char.ofNat 49]) := by
  have h0 : ¬ (n / 1000000 * 1000000 + 100000 = 0) := by omega
  rw [Gslog.fracRFC3339Nano, if_neg h0]
  have h9 : Gslog.nineDigits (n / 1000000 * 1000000 + 100000) =
      Gslog.msPad3 (n / 1000000 % 1000) ++
        [Char.ofNat 49, Char.ofNat 48, Char.ofNat 48, Char.ofNat 48,
         Char.ofNat 48, Char.ofNat 48] := by
    have e1 : (n / 1000000 * 1000000 + 100000) / 100000000 % 10 =
        n / 1000000 % 1000 / 100 % 10 := by omega
    have e2 : (n / 1000000 * 1000000 + 100000) / 10000000 % 10 =
        n / 1000000 % 1000 / 10 % 10 := by omega
    have e3 : (n / 1000000 * 1000000 + 100000) / 1000000 % 10 =
        n / 1000000 % 1000 % 10 := by omega
    have e4 : (n / 1000000 * 1000000 + 100000) / 100000 % 10 = 1 := by omega
    have e5 : (n / 1000000 * 1000000 + 100000) / 10000 % 10 = 0 := by omega
    have e6 : (n / 1000000 * 1000000 + 100000) / 1000 % 10 = 0 := by omega
    have e7 : (n / 1000000 * 1000000 + 100000) / 100 % 10 = 0 := by omega
    have e8 : (n / 1000000 * 1000000 + 100000) / 10 % 10 = 0 := by omega
    have e9 : (n / 1000000 * 1000000 + 100000) % 10 = 0 := by omega
    simp only [Gslog.nineDigits, Gslog.msPad3, e1, e2, e3, e4, e5, e6, e7, e8, e9]
    simp [Nat.digitChar]
  rw [h9]
  rfl

/-- C3: for every time value, `TimeToRFC3339InMs` yields the RFC3339
rendering with exactly three fractional-second digits — the milliseconds of
the nanosecond field, zero-padded, obtained by truncation (`nanos / 10^6`),
never trimmed and never rounded up — wrapped in the double quotes the
function emits; in particular the instant 2000-01-02T03:04:05.0000004 UTC
(nanosecond field 400) formats to exactly `"2000-01-02T03:04:05.000Z"`:
the sub-millisecond remainder is dropped and never carries. -/
theorem c3_timestamp_format :
    (∀ t : Gslog.GoTime,
      Gslog.TimeToRFC3339InMs t =
        ⟨Char.ofNat 34 ::
          (Gslog.dateTimePart t ++
            Char.ofNat 46 :: Gslog.msPad3 (t.nanos / 1000000 % 1000) ++
            Gslog.tzSuffix t.offsetMinutes) ++ [Char.ofNat 34]⟩) ∧
    Gslog.TimeToRFC3339InMs ⟨2000, 1, 2, 3, 4, 5, 400, 0⟩ =
      "\"2000-01-02T03:04:05.000Z\"" := by
  refine ⟨fun t => ?_, by decide⟩
  have hm := fracRFC3339Nano_ms t.nanos
  simp only [Gslog.TimeToRFC3339InMs]
  have hf : Gslog.formatRFC3339Nano
      { t with nanos := t.nanos / 1000000 * 1000000 + 100000 } =
      (Gslog.dateTimePart t ++ Char.ofNat 46 ::
        Gslog.msPad3 (t.nanos / 1000000 % 1000)) ++
        (Char.ofNat 49 :: Gslog.tzSuffix t.offsetMinutes) := by
    simp only [Gslog.formatRFC3339Nano, Gslog.dateTimePart, hm]
    simp
  rw [hf]
  have hA : (Char.ofNat 34 :: (Gslog.dateTimePart t ++ Char.ofNat 46 ::
      Gslog.msPad3 (t.nanos / 1000000 % 1000))).length = 24 := by
    simp [dateTimePart_length, Gslog.msPad3]
  have e1 : (Char.ofNat 34 :: ((Gslog.dateTimePart t ++ Char.ofNat 46 ::
      Gslog.msPad3 (t.nanos / 1000000 % 1000)) ++
        (Char.ofNat 49 :: Gslog.tzSuffix t.offsetMinutes))).take 24 =
      Char.ofNat 34 :: (Gslog.dateTimePart t ++ Char.ofNat 46 ::
        Gslog.msPad3 (t.nanos / 1000000 % 1000)) := by
    have hsplit : (Char.ofNat 34 :: (Gslog.dateTimePart t ++ Char.ofNat 46 ::
        Gslog.msPad3 (t.nanos / 1000000 % 1000))) ++
          (Char.ofNat 49 :: Gslog.tzSuffix t.offsetMinutes) =
        Char.ofNat 34 :: ((Gslog.dateTimePart t ++ Char.ofNat 46 ::
          Gslog.msPad3 (t.nanos / 1000000 % 1000)) ++
            (Char.ofNat 49 :: Gslog.tzSuffix t.offsetMinutes)) := by simp
    rw [← hsplit, List.take_left' hA]
  have e2 : (Char.ofNat 34 :: ((Gslog.dateTimePart t ++ Char.ofNat 46 ::
      Gslog.msPad3 (t.nanos / 1000000 % 1000)) ++
        (Char.ofNat 49 :: Gslog.tzSuffix t.offsetMinutes))).drop 25 =
      Gslog.tzSuffix t.offsetMinutes := by
    have hsplit : ((Char.ofNat 34 :: (Gslog.dateTimePart t ++ Char.ofNat 46 ::
        Gslog.msPad3 (t.nanos / 1000000 % 1000))) ++ [Char.ofNat 49]) ++
          Gslog.tzSuffix t.offsetMinutes =
        Char.ofNat 34 :: ((Gslog.dateTimePart t ++ Char.ofNat 46 ::
          Gslog.msPad3 (t.nanos / 1000000 % 1000)) ++
            (Char.ofNat 49 :: Gslog.tzSuffix t.offsetMinutes)) := by simp
    rw [← hsplit, List.drop_left' (by simp [dateTimePart_length, Gslog.msPad3])]
  rw [e1, e2]
  simp

theorem decorateLazy_eq (fs : Gslog.SFields) (k : String) :
    ∀ w : Gslog.AValue, Gslog.decorateLazy fs k w =
      (if k = "" ∧ (Gslog.AValue.resolve w).isNilAny then fs
       else
         match Gslog.ValToStruct (Gslog.AValue.resolve w) with
         | none => fs
         | some val => Gslog.setField fs k val)
  | .lazy w => by
      have h : Gslog.AValue.resolve (.lazy w) = Gslog.AValue.resolve w := rfl
      rw [show Gslog.decorateLazy fs k (.lazy w) = Gslog.decorateLazy fs k w from rfl,
        decorateLazy_eq fs k w, h]
  | .group g => by
      cases g <;>
        simp [Gslog.decorateLazy, Gslog.AValue.resolve, Gslog.ValToStruct,
          Gslog.AValue.isNilAny, Gslog.AttrList.isEmpty, Gslog.NewGroupValue]
  | .str s => rfl
  | .int i => rfl
  | .uint u => rfl
  | .float f => rfl
  | .bool b => rfl
  | .duration d => rfl
  | .time t => rfl
  | .anyNil => rfl
  | .anyVal r => rfl

theorem decorateWith_eq (fs : Gslog.SFields) (k : String) (v : Gslog.AValue) :
    Gslog.decorateWithCore fs k v = Gslog.DecorateWith fs (k, v) := by
  cases v with
  | lazy w =>
      rw [show Gslog.decorateWithCore fs k (.lazy w) = Gslog.decorateLazy fs k w from rfl,
        decorateLazy_eq fs k w]
      simp only [Gslog.DecorateWith, Gslog.AValue.kindIsGroup]
      have h : Gslog.AValue.resolve (.lazy w) = Gslog.AValue.resolve w := rfl
      rw [h]
      by_cases hk : k = "" ∧ (Gslog.AValue.resolve w).isNilAny
      · rw [if_pos hk, if_pos hk]
      · rw [if_neg hk, if_neg hk]
        cases Gslog.ValToStruct (Gslog.AValue.resolve w) with
        | none => rfl
        | some val => simp
  | group g =>
      cases g <;>
        simp [Gslog.decorateWithCore, Gslog.DecorateWith, Gslog.ValToStruct,
          Gslog.AValue.resolve, Gslog.AValue.kindIsGroup, Gslog.AValue.isNilAny,
          Gslog.AttrList.isEmpty, Gslog.NewGroupValue, Gslog.structFields]
  | str s => simp [Gslog.decorateWithCore, Gslog.DecorateWith, Gslog.ValToStruct,
      Gslog.AValue.resolve, Gslog.AValue.kindIsGroup, Gslog.valToStructLeaf]
  | int i => simp [Gslog.decorateWithCore, Gslog.DecorateWith, Gslog.ValToStruct,
      Gslog.AValue.resolve, Gslog.AValue.kindIsGroup, Gslog.valToStructLeaf]
  | uint u => simp [Gslog.decorateWithCore, Gslog.DecorateWith, Gslog.ValToStruct,
      Gslog.AValue.resolve, Gslog.AValue.kindIsGroup, Gslog.valToStructLeaf]
  | float f => simp [Gslog.decorateWithCore, Gslog.DecorateWith, Gslog.ValToStruct,
      Gslog.AValue.resolve, Gslog.AValue.kindIsGroup, Gslog.valToStructLeaf]
  | bool b => simp [Gslog.decorateWithCore, Gslog.DecorateWith, Gslog.ValToStruct,
      Gslog.AValue.resolve, Gslog.AValue.kindIsGroup, Gslog.valToStructLeaf]
  | duration d => simp [Gslog.decorateWithCore, Gslog.DecorateWith, Gslog.ValToStruct,
      Gslog.AValue.resolve, Gslog.AValue.kindIsGroup, Gslog.valToStructLeaf]
  | time t => simp [Gslog.decorateWithCore, Gslog.DecorateWith, Gslog.ValToStruct,
      Gslog.AValue.resolve, Gslog.AValue.kindIsGroup, Gslog.valToStructLeaf]
  | anyNil => simp [Gslog.decorateWithCore, Gslog.DecorateWith, Gslog.ValToStruct,
      Gslog.AValue.resolve, Gslog.AValue.kindIsGroup, Gslog.valToStructLeaf]
  | anyVal r =>
      cases r <;>
        simp [Gslog.decorateWithCore, Gslog.DecorateWith, Gslog.ValToStruct,
          Gslog.AValue.resolve, Gslog.AValue.kindIsGroup, Gslog.valToStructLeaf]

theorem wrappedList_nil_of_elided (m : Gslog.Mapper) (gs : List String) :
    ∀ g : Gslog.AttrList,
      (∀ a : Gslog.Attr, Gslog.AttrList.Mem a g →
        Gslog.attrElided (Gslog.wrappedMap m gs a.1 a.2)) →
      Gslog.wrappedList m gs g = .nil
  | .nil, _ => rfl
  | .cons k v rest, h => by
      have hk : (Gslog.wrappedMap m gs k v).1 = "" ∧
          (Gslog.wrappedMap m gs k v).2.isNilAny :=
        h (k, v) (Or.inl rfl)
      have hrest := wrappedList_nil_of_elided m gs rest
        (fun a ha => h a (Or.inr ha))
      simp only [Gslog.wrappedList]
      rw [if_pos hk, hrest]

/-- C4 (counterexample): a non-empty group whose children all resolve to
the dropped marker does not itself resolve to "dropped": the group holding
exactly the canonical elided attribute (empty key, nil value) resolves to
`some` of the empty object, and decorating it under a key writes the empty
object `\x7b\x7d` into the payload. -/
theorem c4_all_dropped_group_materializes :
    Gslog.ValToStruct (.group (.cons "" .anyNil .nil)) = some (.object .nil) ∧
    ¬ Gslog.ValToStruct (.group (.cons "" .anyNil .nil)) = none ∧
    Gslog.DecorateWith .nil ("g", .group (.cons "" .anyNil .nil)) =
      .cons "g" (.object .nil) .nil := by
  refine ⟨rfl, ?_, rfl⟩
  intro h
  exact Option.noConfusion h

/-- C4 (amended): a group attribute with zero children resolves to no
value (`none`) and is never written, so it cannot materialize as the empty
object; the recursive all-dropped-children elision holds in the rewrite
pipeline: under the mapper wrapped by `WrapAttrMapper`, a group all of
whose children map to the elided marker collapses, at any depth, to the
elided marker itself.  At resolution time (`ValToStruct`), however, a
non-empty group whose children are all dropped materializes as the empty
object. -/
theorem c4_empty_group_elision :
    Gslog.ValToStruct (.group .nil) = none ∧
    (∀ (fs : Gslog.SFields) (k : String),
      Gslog.DecorateWith fs (k, .group .nil) = fs) ∧
    (∀ (m : Gslog.Mapper) (gs : List String) (k : String) (g : Gslog.AttrList),
      (∀ a : Gslog.Attr, Gslog.AttrList.Mem a g →
        Gslog.attrElided (Gslog.wrappedMap m (gs ++ [k]) a.1 a.2)) →
      Gslog.wrappedMap m gs k (.group g) = ("", .anyNil)) := by
  refine ⟨rfl, fun fs k => ?_, fun m gs k g h => ?_⟩
  · simp [Gslog.DecorateWith, Gslog.AValue.resolve, Gslog.AValue.isNilAny,
      Gslog.ValToStruct, Gslog.AttrList.isEmpty]
  · simp only [Gslog.wrappedMap]
    rw [wrappedList_nil_of_elided m (gs ++ [k]) g h]

theorem c4_empty_group_elision_witness :
    Gslog.wrappedMap (fun _ _ => ("", Gslog.AValue.anyNil)) [] "g"
      (.group (.cons "a" (.int 1) .nil)) = ("", .anyNil) := by
  refine c4_empty_group_elision.2.2 (fun _ _ => ("", Gslog.AValue.anyNil))
    [] "g" (.cons "a" (.int 1) .nil) ?_
  intro a ha
  rcases ha with h | h
  · subst h
    exact ⟨rfl, rfl⟩
  · cases h

/-- C9: writing a group attribute whose key is the empty string merges the
group's resolved fields directly into the current object as direct
siblings, while a group attribute with any non-empty key nests them under
a sub-object (or is dropped when the group is empty) — the anonymous group
is the single inlining exception. -/
theorem c9_inline_group_merge :
    (∀ (fs : Gslog.SFields) (g : Gslog.AttrList), g.isEmpty = false →
      Gslog.DecorateWith fs ("", .group g) =
        Gslog.mergeFields fs (Gslog.decorateList .nil g)) ∧
    (∀ (fs : Gslog.SFields) (k : String) (g : Gslog.AttrList), ¬ k = "" →
      Gslog.DecorateWith fs (k, .group g) =
        (if g.isEmpty then fs
         else Gslog.setField fs k (Gslog.NewGroupValue g))) := by
  constructor
  · intro fs g hg
    cases g with
    | nil => simp [Gslog.AttrList.isEmpty] at hg
    | cons ck cv rest =>
        simp [Gslog.DecorateWith, Gslog.AValue.resolve, Gslog.AValue.isNilAny,
          Gslog.AValue.kindIsGroup, Gslog.ValToStruct, Gslog.AttrList.isEmpty,
          Gslog.NewGroupValue, Gslog.structFields]
  · intro fs k g hk
    cases g with
    | nil =>
        simp [Gslog.DecorateWith, Gslog.AValue.resolve, Gslog.AValue.isNilAny,
          Gslog.AValue.kindIsGroup, Gslog.ValToStruct, Gslog.AttrList.isEmpty]
    | cons ck cv rest =>
        simp [Gslog.DecorateWith, Gslog.AValue.resolve, Gslog.AValue.isNilAny,
          Gslog.AValue.kindIsGroup, Gslog.ValToStruct, Gslog.AttrList.isEmpty,
          Gslog.NewGroupValue, hk]

theorem c9_inline_group_merge_witness :
    Gslog.DecorateWith (.cons "p" (.str "q") .nil)
        ("", .group (.cons "a" (.str "x") .nil)) =
      Gslog.mergeFields (.cons "p" (.str "q") .nil)
        (Gslog.decorateList .nil (.cons "a" (.str "x") .nil)) ∧
    Gslog.DecorateWith .nil ("g", .group (.cons "a" (.str "x") .nil)) =
      (if (Gslog.AttrList.cons "a" (.str "x") .nil).isEmpty then
        (Gslog.SFields.nil)
       else Gslog.setField .nil "g"
        (Gslog.NewGroupValue (.cons "a" (.str "x") .nil))) :=
  ⟨c9_inline_group_merge.1 (.cons "p" (.str "q") .nil)
      (.cons "a" (.str "x") .nil) rfl,
   c9_inline_group_merge.2 .nil "g" (.cons "a" (.str "x") .nil)
      (by decide)⟩

theorem Handle_entry (h : Gslog.Handler) (logSync : Gslog.Entry → Option String)
    (ctxLabels : List (String × String)) (r : Gslog.Record) :
    (Gslog.Handle h logSync ctxLabels r).entry = Gslog.handleEntry h ctxLabels r := by
  unfold Gslog.Handle
  split <;> rfl

theorem augmentors_severity (gs : List String) :
    ∀ (l : List Gslog.EntryAugmentor) (e : Gslog.Entry),
      (∀ b ∈ l, ∀ (gs2 : List String) (e2 : Gslog.Entry),
        (b gs2 e2).severity = e2.severity) →
      (l.foldl (fun acc b => b gs acc) e).severity = e.severity
  | [], _, _ => rfl
  | b :: rest, e, h => by
      rw [List.foldl_cons,
        augmentors_severity gs rest (b gs e)
          (fun b2 hb2 => h b2 (List.mem_cons_of_mem _ hb2))]
      exact h b (List.mem_cons_self _ _) gs e

theorem handleEntry_severity (h : Gslog.Handler)
    (ctxLabels : List (String × String)) (r : Gslog.Record)
    (haug : ∀ b ∈ h.entryAugmentors, ∀ (gs : List String) (e : Gslog.Entry),
      (b gs e).severity = e.severity) :
    (Gslog.handleEntry h ctxLabels r).severity = Gslog.levelToSeverity r.level := by
  unfold Gslog.handleEntry
  rw [augmentors_severity h.groups h.entryAugmentors _ haug]
  rfl

/-- C7: when every configured augmentor leaves the severity field alone
(as the augmentors shipped with this code base do), `Handle` takes the
synchronous sink path exactly when the record's mapped severity is at or
above the critical tier and the buffered path exactly when it is below,
never both; the call always returns a `nil` error; a diagnostic reaches
the process error stream only as the synchronous send's failure text, and
the buffered path writes nothing to it — in particular an unmappable
attribute is dropped during decoration, never surfaced as an error. -/
theorem c7_dispatch_and_nil_error (h : Gslog.Handler)
    (logSync : Gslog.Entry → Option String)
    (ctxLabels : List (String × String)) (r : Gslog.Record)
    (haug : ∀ b ∈ h.entryAugmentors, ∀ (gs : List String) (e : Gslog.Entry),
      (b gs e).severity = e.severity) :
    ((Gslog.Handle h logSync ctxLabels r).path = .sync ↔
      Gslog.SeverityCritical ≤ Gslog.levelToSeverity r.level) ∧
    ((Gslog.Handle h logSync ctxLabels r).path = .buffered ↔
      Gslog.levelToSeverity r.level < Gslog.SeverityCritical) ∧
    ¬ ((Gslog.Handle h logSync ctxLabels r).path = .sync ∧
       (Gslog.Handle h logSync ctxLabels r).path = .buffered) ∧
    (Gslog.Handle h logSync ctxLabels r).returned = none ∧
    ((Gslog.Handle h logSync ctxLabels r).path = .buffered →
      (Gslog.Handle h logSync ctxLabels r).stderr = none) ∧
    ((Gslog.Handle h logSync ctxLabels r).path = .sync →
      (Gslog.Handle h logSync ctxLabels r).stderr =
        (logSync (Gslog.handleEntry h ctxLabels r)).map
          (fun err => "error logging: " ++ r.message ++ "\n" ++ err)) := by
  have hsev := handleEntry_severity h ctxLabels r haug
  unfold Gslog.Handle
  by_cases hc : Gslog.SeverityCritical ≤ (Gslog.handleEntry h ctxLabels r).severity
  · rw [if_pos hc]
    rw [hsev] at hc
    refine ⟨by simp [hc], ?_, by simp, rfl, by simp, fun _ => rfl⟩
    constructor
    · intro hb
      exact absurd hb (by simp)
    · intro hlt
      omega
  · rw [if_neg hc]
    rw [hsev] at hc
    refine ⟨?_, by simp; omega, by simp, rfl, fun _ => rfl, by simp⟩
    constructor
    · intro hb
      exact absurd hb (by simp)
    · intro hge
      omega

theorem c7_dispatch_and_nil_error_witness :
    ((Gslog.Handle (Gslog.NewGcpHandler 0 false [] none) (fun _ => none) []
        ⟨⟨2024, 1, 1, 0, 0, 0, 0, 0⟩, "m", Gslog.LevelCritical, .nil,
          ⟨"f", 1, "fn"⟩⟩).path = .sync ↔
      Gslog.SeverityCritical ≤ Gslog.levelToSeverity Gslog.LevelCritical) ∧
    ((Gslog.Handle (Gslog.NewGcpHandler 0 false [] none) (fun _ => none) []
        ⟨⟨2024, 1, 1, 0, 0, 0, 0, 0⟩, "m", Gslog.LevelCritical, .nil,
          ⟨"f", 1, "fn"⟩⟩).returned = none) :=
  have h := c7_dispatch_and_nil_error (Gslog.NewGcpHandler 0 false [] none)
    (fun _ => none) []
    ⟨⟨2024, 1, 1, 0, 0, 0, 0, 0⟩, "m", Gslog.LevelCritical, .nil, ⟨"f", 1, "fn"⟩⟩
    (by intro b hb; cases hb)
  ⟨h.1, h.2.2.2.1⟩

theorem lookupField_setField_self (k : String) (v : Gslog.SValue) :
    ∀ fs : Gslog.SFields, Gslog.lookupField k (Gslog.setField fs k v) = some v
  | .nil => by simp [Gslog.setField, Gslog.lookupField]
  | .cons key w rest => by
      by_cases hk : key = k
      · simp [Gslog.setField, hk, Gslog.lookupField]
      · simp [Gslog.setField, hk, Gslog.lookupField,
          lookupField_setField_self k v rest]

theorem DecorateWith_str (fs : Gslog.SFields) (k : String) (s : String) :
    Gslog.DecorateWith fs (k, .str s) = Gslog.setField fs k (.str s) := by
  simp [Gslog.DecorateWith, Gslog.AValue.resolve, Gslog.AValue.isNilAny,
    Gslog.AValue.kindIsGroup, Gslog.ValToStruct, Gslog.valToStructLeaf]

theorem augmentors_payload (gs : List String) :
    ∀ (l : List Gslog.EntryAugmentor) (e : Gslog.Entry),
      (∀ b ∈ l, ∀ (gs2 : List String) (e2 : Gslog.Entry),
        (b gs2 e2).payload = e2.payload) →
      (l.foldl (fun acc b => b gs acc) e).payload = e.payload
  | [], _, _ => rfl
  | b :: rest, e, h => by
      rw [List.foldl_cons,
        augmentors_payload gs rest (b gs e)
          (fun b2 hb2 => h b2 (List.mem_cons_of_mem _ hb2))]
      exact h b (List.mem_cons_self _ _) gs e

theorem handleEntry_payload (h : Gslog.Handler)
    (ctxLabels : List (String × String)) (r : Gslog.Record)
    (haug : ∀ b ∈ h.entryAugmentors, ∀ (gs : List String) (e : Gslog.Entry),
      (b gs e).payload = e.payload) :
    (Gslog.handleEntry h ctxLabels r).payload = Gslog.handlePayload h r := by
  unfold Gslog.handleEntry
  rw [augmentors_payload h.groups h.entryAugmentors _ haug]
  rfl

theorem handlePayload_message (h : Gslog.Handler) (r : Gslog.Record)
    (hra : h.replaceAttr = none) :
    Gslog.lookupField "message" (Gslog.handlePayload h r) =
      some (.str r.message) := by
  unfold Gslog.handlePayload
  rw [hra]
  rw [show Gslog.applyMapper none [] (Gslog.MessageKey, .str r.message) =
    (Gslog.MessageKey, Gslog.AValue.str r.message) from rfl]
  rw [show Gslog.MessageKey = "message" from rfl, DecorateWith_str]
  exact lookupField_setField_self "message" (.str r.message) _

/-- C8: with no rewrite function configured (and augmentors that do not
rewrite the payload, as the shipped ones do not), every emitted entry's
payload holds a top-level "message" field with the record's message
string, written at the root of the cloned payload regardless of the
handler's open-group path. -/
theorem c8_message_at_root (h : Gslog.Handler)
    (logSync : Gslog.Entry → Option String)
    (ctxLabels : List (String × String)) (r : Gslog.Record)
    (hra : h.replaceAttr = none)
    (haug : ∀ b ∈ h.entryAugmentors, ∀ (gs : List String) (e : Gslog.Entry),
      (b gs e).payload = e.payload) :
    Gslog.lookupField "message"
      (Gslog.Handle h logSync ctxLabels r).entry.payload =
      some (.str r.message) := by
  rw [Handle_entry, handleEntry_payload h ctxLabels r haug,
    handlePayload_message h r hra]

theorem c8_message_at_root_witness :
    Gslog.lookupField "message"
      (Gslog.Handle
        (Gslog.WithGroup (Gslog.NewGcpHandler 0 false [] none) "grp")
        (fun _ => none) []
        ⟨⟨2024, 1, 1, 0, 0, 0, 0, 0⟩, "hello", 0, .nil, ⟨"f", 1, "fn"⟩⟩).entry.payload =
      some (.str "hello") :=
  c8_message_at_root
    (Gslog.WithGroup (Gslog.NewGcpHandler 0 false [] none) "grp")
    (fun _ => none) []
    ⟨⟨2024, 1, 1, 0, 0, 0, 0, 0⟩, "hello", 0, .nil, ⟨"f", 1, "fn"⟩⟩
    rfl (by intro b hb; cases hb)

/-- C10: with no rewrite function configured, an empty open-group path,
and payload-preserving augmentors, the synthetic message attribute is
decorated after all record attributes, so even when the record carries an
attribute keyed "message" the emitted top-level "message" field holds the
record's message text — the log message wins the key collision. -/
theorem c10_message_overwrites_record_attr (h : Gslog.Handler)
    (logSync : Gslog.Entry → Option String)
    (ctxLabels : List (String × String)) (r : Gslog.Record)
    (v : Gslog.AValue)
    (hg : h.groups = [])
    (hra : h.replaceAttr = none)
    (haug : ∀ b ∈ h.entryAugmentors, ∀ (gs : List String) (e : Gslog.Entry),
      (b gs e).payload = e.payload)
    (hmem : Gslog.AttrList.Mem ("message", v) r.attrs) :
    Gslog.lookupField "message"
      (Gslog.Handle h logSync ctxLabels r).entry.payload =
      some (.str r.message) := by
  rw [Handle_entry, handleEntry_payload h ctxLabels r haug,
    handlePayload_message h r hra]

theorem c10_message_overwrites_record_attr_witness :
    Gslog.lookupField "message"
      (Gslog.Handle (Gslog.NewGcpHandler 0 false [] none)
        (fun _ => none) []
        ⟨⟨2024, 1, 1, 0, 0, 0, 0, 0⟩, "the real message", 0,
          .cons "message" (.str "impostor") .nil, ⟨"f", 1, "fn"⟩⟩).entry.payload =
      some (.str "the real message") :=
  c10_message_overwrites_record_attr (Gslog.NewGcpHandler 0 false [] none)
    (fun _ => none) []
    ⟨⟨2024, 1, 1, 0, 0, 0, 0, 0⟩, "the real message", 0,
      .cons "message" (.str "impostor") .nil, ⟨"f", 1, "fn"⟩⟩
    (.str "impostor") rfl rfl (by intro b hb; cases hb) (Or.inl rfl)

theorem lookupField_setField_ne (k key : String) (v : Gslog.SValue)
    (hne : ¬ key = k) :
    ∀ fs : Gslog.SFields,
      Gslog.lookupField k (Gslog.setField fs key v) = Gslog.lookupField k fs
  | .nil => by simp [Gslog.setField, Gslog.lookupField, hne]
  | .cons key2 w rest => by
      by_cases h2 : key2 = key
      · simp [Gslog.setField, h2, Gslog.lookupField, hne]
      · simp only [Gslog.setField, if_neg h2, Gslog.lookupField]
        rw [lookupField_setField_ne k key v hne rest]

theorem lookupField_deleteField_self (k : String) :
    ∀ fs : Gslog.SFields,
      Gslog.lookupField k (Gslog.deleteField k fs) = none
  | .nil => rfl
  | .cons key v rest => by
      by_cases h2 : key = k
      · simp only [Gslog.deleteField, if_pos h2]
        exact lookupField_deleteField_self k rest
      · simp only [Gslog.deleteField, if_neg h2, Gslog.lookupField, if_neg h2]
        exact lookupField_deleteField_self k rest

theorem setAndClean_eq_writeAtPathPruned :
    ∀ (path : List String) (fs : Gslog.SFields)
      (dec : Gslog.SFields → Gslog.SFields),
      Gslog.setAndClean path fs dec =
        Gslog.writeAtPathPruned (dec (Gslog.descendFields fs path)) path fs
  | [], _, _ => rfl
  | g :: rest, fs, dec => by
      simp only [Gslog.setAndClean, Gslog.writeAtPathPruned]
      rw [setAndClean_eq_writeAtPathPruned rest
        (Gslog.structFieldsOfOpt (Gslog.lookupField g fs)) dec]
      rfl

/-- C6: (i) `setAndClean` is exactly "write the record's decorated fields
into the object reached by descending the handler's open-group path, then
delete every group on that path whose fields ended up empty"
(`writeAtPathPruned`); and (ii) at the `Handle` level, a group the handler
opened but that receives no fields for a record is absent from that
record's emitted payload: with no rewrite function, payload-preserving
augmentors, no record attributes, and an open-group path `[g]` whose
group is currently empty, the emitted payload has no field `g`.  (The
handler's persistent tree is a value in this embedding, so the per-record
clone cannot alter it.) -/
theorem c6_set_and_clean :
    (∀ (path : List String) (fs : Gslog.SFields)
      (dec : Gslog.SFields → Gslog.SFields),
      Gslog.setAndClean path fs dec =
        Gslog.writeAtPathPruned (dec (Gslog.descendFields fs path)) path fs) ∧
    (∀ (h : Gslog.Handler) (logSync : Gslog.Entry → Option String)
      (ctxLabels : List (String × String)) (r : Gslog.Record) (g : String),
      h.groups = [g] → h.replaceAttr = none → r.attrs = .nil →
      ¬ g = "message" →
      (∀ b ∈ h.entryAugmentors, ∀ (gs : List String) (e : Gslog.Entry),
        (b gs e).payload = e.payload) →
      Gslog.fieldsLen
        (Gslog.structFieldsOfOpt (Gslog.lookupField g h.payload)) = 0 →
      Gslog.lookupField g
        (Gslog.Handle h logSync ctxLabels r).entry.payload = none) := by
  refine ⟨setAndClean_eq_writeAtPathPruned, ?_⟩
  intro h logSync ctxLabels r g hg hra hattrs hgm haug hlen
  rw [Handle_entry, handleEntry_payload h ctxLabels r haug]
  unfold Gslog.handlePayload
  rw [hra, hattrs, hg]
  rw [show Gslog.applyMapper none [] (Gslog.MessageKey, .str r.message) =
    (Gslog.MessageKey, Gslog.AValue.str r.message) from rfl]
  rw [show Gslog.MessageKey = "message" from rfl, DecorateWith_str,
    lookupField_setField_ne g "message" _ (fun e => hgm e.symm)]
  simp only [Gslog.setAndClean, Gslog.decorateAll]
  rw [if_pos hlen]
  exact lookupField_deleteField_self g h.payload

theorem c6_set_and_clean_witness :
    Gslog.lookupField "grp"
      (Gslog.Handle (Gslog.WithGroup (Gslog.NewGcpHandler 0 false [] none) "grp")
        (fun _ => none) []
        ⟨⟨2024, 1, 1, 0, 0, 0, 0, 0⟩, "hello", 0, .nil,
          ⟨"f", 1, "fn"⟩⟩).entry.payload = none :=
  c6_set_and_clean.2
    (Gslog.WithGroup (Gslog.NewGcpHandler 0 false [] none) "grp")
    (fun _ => none) []
    ⟨⟨2024, 1, 1, 0, 0, 0, 0, 0⟩, "hello", 0, .nil, ⟨"f", 1, "fn"⟩⟩
    "grp" rfl rfl rfl (by decide) (by intro b hb; cases hb) rfl

theorem sfieldsMentions_cons (k key : String) (v : Gslog.SValue)
    (rest : Gslog.SFields) :
    Gslog.sfieldsMentions k (.cons key v rest) = true ↔
      key = k ∨ Gslog.svalMentions k v = true ∨
        Gslog.sfieldsMentions k rest = true := by
  rw [show Gslog.sfieldsMentions k (.cons key v rest) =
    (key == k || Gslog.svalMentions k v || Gslog.sfieldsMentions k rest)
    from rfl]
  simp [Bool.or_eq_true, beq_iff_eq, or_assoc]

theorem attrsMention_cons (k key : String) (v : Gslog.AValue)
    (rest : Gslog.AttrList) :
    Gslog.attrsMention k (.cons key v rest) = true ↔
      key = k ∨ Gslog.avalMentions k v = true ∨
        Gslog.attrsMention k rest = true := by
  rw [show Gslog.attrsMention k (.cons key v rest) =
    (key == k || Gslog.avalMentions k v || Gslog.attrsMention k rest)
    from rfl]
  simp [Bool.or_eq_true, beq_iff_eq, or_assoc]

theorem sfieldsMentions_setField (k key : String) (v : Gslog.SValue) :
    ∀ fs : Gslog.SFields,
      Gslog.sfieldsMentions k (Gslog.setField fs key v) = true →
      key = k ∨ Gslog.svalMentions k v = true ∨
        Gslog.sfieldsMentions k fs = true
  | .nil, h => by
      rw [show Gslog.setField .nil key v = .cons key v .nil from rfl,
        sfieldsMentions_cons] at h
      tauto
  | .cons key2 w rest, h => by
      by_cases h2 : key2 = key
      · rw [show Gslog.setField (.cons key2 w rest) key v = .cons key2 v rest
          from by simp [Gslog.setField, h2], sfieldsMentions_cons] at h
        rw [sfieldsMentions_cons]
        rcases h with h | h | h
        · exact Or.inl (h2 ▸ h)
        · exact Or.inr (Or.inl h)
        · exact Or.inr (Or.inr (Or.inr (Or.inr h)))
      · rw [show Gslog.setField (.cons key2 w rest) key v =
          .cons key2 w (Gslog.setField rest key v)
          from by simp [Gslog.setField, h2], sfieldsMentions_cons] at h
        rw [sfieldsMentions_cons]
        rcases h with h | h | h
        · exact Or.inr (Or.inr (Or.inl h))
        · exact Or.inr (Or.inr (Or.inr (Or.inl h)))
        · rcases sfieldsMentions_setField k key v rest h with h3 | h3 | h3
          · exact Or.inl h3
          · exact Or.inr (Or.inl h3)
          · exact Or.inr (Or.inr (Or.inr (Or.inr h3)))

theorem sfieldsMentions_mergeFields (k : String) :
    ∀ (gfs fs : Gslog.SFields),
      Gslog.sfieldsMentions k (Gslog.mergeFields fs gfs) = true →
      Gslog.sfieldsMentions k fs = true ∨ Gslog.sfieldsMentions k gfs = true
  | .nil, _, h => Or.inl h
  | .cons key v rest, fs, h => by
      rcases sfieldsMentions_mergeFields k rest (Gslog.setField fs key v) h
        with h1 | h1
      · rcases sfieldsMentions_setField k key v fs h1 with h2 | h2 | h2
        · exact Or.inr ((sfieldsMentions_cons k key v rest).2 (Or.inl h2))
        · exact Or.inr ((sfieldsMentions_cons k key v rest).2 (Or.inr (Or.inl h2)))
        · exact Or.inl h2
      · exact Or.inr ((sfieldsMentions_cons k key v rest).2 (Or.inr (Or.inr h1)))

theorem sfieldsMentions_deleteField (k key : String) :
    ∀ fs : Gslog.SFields,
      Gslog.sfieldsMentions k (Gslog.deleteField key fs) = true →
      Gslog.sfieldsMentions k fs = true
  | .nil, h => h
  | .cons key2 v rest, h => by
      rw [sfieldsMentions_cons]
      by_cases h2 : key2 = key
      · rw [show Gslog.deleteField key (.cons key2 v rest) =
          Gslog.deleteField key rest from by simp [Gslog.deleteField, h2]] at h
        exact Or.inr (Or.inr (sfieldsMentions_deleteField k key rest h))
      · rw [show Gslog.deleteField key (.cons key2 v rest) =
          .cons key2 v (Gslog.deleteField key rest)
          from by simp [Gslog.deleteField, h2], sfieldsMentions_cons] at h
        rcases h with h | h | h
        · exact Or.inl h
        · exact Or.inr (Or.inl h)
        · exact Or.inr (Or.inr (sfieldsMentions_deleteField k key rest h))

theorem svalMentions_valToStructLeaf (k : String) :
    ∀ (v : Gslog.AValue) (sv : Gslog.SValue),
      Gslog.valToStructLeaf v = some sv →
      Gslog.svalMentions k sv = true → Gslog.avalMentions k v = true
  | .str _, _, hv, hsv => by
      cases hv
      simp [Gslog.svalMentions] at hsv
  | .int _, _, hv, hsv => by
      cases hv
      simp [Gslog.svalMentions] at hsv
  | .uint _, _, hv, hsv => by
      cases hv
      simp [Gslog.svalMentions] at hsv
  | .float _, _, hv, hsv => by
      cases hv
      simp [Gslog.svalMentions] at hsv
  | .bool _, _, hv, hsv => by
      cases hv
      simp [Gslog.svalMentions] at hsv
  | .duration _, _, hv, hsv => by
      cases hv
      simp [Gslog.svalMentions] at hsv
  | .time _, _, hv, hsv => by
      cases hv
      simp [Gslog.svalMentions] at hsv
  | .anyNil, _, hv, hsv => by
      cases hv
      simp [Gslog.svalMentions] at hsv
  | .anyVal (some x), sv, hv, hsv => by
      cases hv
      simpa [Gslog.avalMentions] using hsv

theorem mentions_leaf (k : String) (fs : Gslog.SFields) (key : String)
    (v : Gslog.AValue)
    (h : Gslog.sfieldsMentions k
      (if key = "" ∧ v.isNilAny then fs
       else
         match Gslog.valToStructLeaf v with
         | none => fs
         | some val => Gslog.setField fs key val) = true) :
    Gslog.sfieldsMentions k fs = true ∨ key = k ∨
      Gslog.avalMentions k v = true := by
  by_cases hc : key = "" ∧ v.isNilAny
  · rw [if_pos hc] at h
    exact Or.inl h
  · rw [if_neg hc] at h
    cases hv : Gslog.valToStructLeaf v with
    | none =>
        rw [hv] at h
        exact Or.inl h
    | some val =>
        rw [hv] at h
        rcases sfieldsMentions_setField k key val fs h with h1 | h1 | h1
        · exact Or.inr (Or.inl h1)
        · exact Or.inr (Or.inr (svalMentions_valToStructLeaf k v val hv h1))
        · exact Or.inl h1

mutual
theorem mentions_decorateWithCore (k : String) (fs : Gslog.SFields)
    (key : String) :
    ∀ v : Gslog.AValue,
      Gslog.sfieldsMentions k (Gslog.decorateWithCore fs key v) = true →
      Gslog.sfieldsMentions k fs = true ∨ key = k ∨
        Gslog.avalMentions k v = true
  | .lazy w, h => mentions_decorateLazy k fs key w h
  | .group .nil, h => Or.inl h
  | .group (.cons ck cv crest), h => by
      by_cases hkey : key = ""
      · rw [show Gslog.decorateWithCore fs key (.group (.cons ck cv crest)) =
          Gslog.mergeFields fs (Gslog.decorateList .nil (.cons ck cv crest))
          from by simp [Gslog.decorateWithCore, Gslog.AttrList.isEmpty, hkey,
            Gslog.structFields]] at h
        rcases sfieldsMentions_mergeFields k _ fs h with h1 | h1
        · exact Or.inl h1
        · rcases mentions_decorateList k (.cons ck cv crest) .nil h1 with h2 | h2
          · exact Bool.noConfusion h2
          · exact Or.inr (Or.inr h2)
      · rw [show Gslog.decorateWithCore fs key (.group (.cons ck cv crest)) =
          Gslog.setField fs key
            (.object (Gslog.decorateList .nil (.cons ck cv crest)))
          from by simp [Gslog.decorateWithCore, Gslog.AttrList.isEmpty, hkey]] at h
        rcases sfieldsMentions_setField k key _ fs h with h1 | h1 | h1
        · exact Or.inr (Or.inl h1)
        · rcases mentions_decorateList k (.cons ck cv crest) .nil h1 with h2 | h2
          · exact Bool.noConfusion h2
          · exact Or.inr (Or.inr h2)
        · exact Or.inl h1
  | .str s, h => mentions_leaf k fs key (.str s) h
  | .int i, h => mentions_leaf k fs key (.int i) h
  | .uint u, h => mentions_leaf k fs key (.uint u) h
  | .float f, h => mentions_leaf k fs key (.float f) h
  | .bool b, h => mentions_leaf k fs key (.bool b) h
  | .duration d, h => mentions_leaf k fs key (.duration d) h
  | .time t, h => mentions_leaf k fs key (.time t) h
  | .anyNil, h => mentions_leaf k fs key .anyNil h
  | .anyVal r, h => mentions_leaf k fs key (.anyVal r) h
theorem mentions_decorateLazy (k : String) (fs : Gslog.SFields)
    (key : String) :
    ∀ v : Gslog.AValue,
      Gslog.sfieldsMentions k (Gslog.decorateLazy fs key v) = true →
      Gslog.sfieldsMentions k fs = true ∨ key = k ∨
        Gslog.avalMentions k v = true
  | .lazy w, h => mentions_decorateLazy k fs key w h
  | .group .nil, h => Or.inl h
  | .group (.cons ck cv crest), h => by
      rw [show Gslog.decorateLazy fs key (.group (.cons ck cv crest)) =
        Gslog.setField fs key
          (.object (Gslog.decorateList .nil (.cons ck cv crest)))
        from by simp [Gslog.decorateLazy, Gslog.AttrList.isEmpty]] at h
      rcases sfieldsMentions_setField k key _ fs h with h1 | h1 | h1
      · exact Or.inr (Or.inl h1)
      · rcases mentions_decorateList k (.cons ck cv crest) .nil h1 with h2 | h2
        · exact Bool.noConfusion h2
        · exact Or.inr (Or.inr h2)
      · exact Or.inl h1
  | .str s, h => mentions_leaf k fs key (.str s) h
  | .int i, h => mentions_leaf k fs key (.int i) h
  | .uint u, h => mentions_leaf k fs key (.uint u) h
  | .float f, h => mentions_leaf k fs key (.float f) h
  | .bool b, h => mentions_leaf k fs key (.bool b) h
  | .duration d, h => mentions_leaf k fs key (.duration d) h
  | .time t, h => mentions_leaf k fs key (.time t) h
  | .anyNil, h => mentions_leaf k fs key .anyNil h
  | .anyVal r, h => mentions_leaf k fs key (.anyVal r) h
theorem mentions_decorateList (k : String) :
    ∀ (g : Gslog.AttrList) (fs : Gslog.SFields),
      Gslog.sfieldsMentions k (Gslog.decorateList fs g) = true →
      Gslog.sfieldsMentions k fs = true ∨ Gslog.attrsMention k g = true
  | .nil, _, h => Or.inl h
  | .cons ck cv crest, fs, h => by
      rcases mentions_decorateList k crest (Gslog.decorateWithCore fs ck cv) h
        with h1 | h1
      · rcases mentions_decorateWithCore k fs ck cv h1 with h2 | h2 | h2
        · exact Or.inl h2
        · exact Or.inr ((attrsMention_cons k ck cv crest).2 (Or.inl h2))
        · exact Or.inr ((attrsMention_cons k ck cv crest).2 (Or.inr (Or.inl h2)))
      · exact Or.inr ((attrsMention_cons k ck cv crest).2 (Or.inr (Or.inr h1)))
end

theorem attrMentions_iff (k : String) (a : Gslog.Attr) :
    Gslog.attrMentions k a = true ↔
      a.1 = k ∨ Gslog.avalMentions k a.2 = true := by
  simp [Gslog.attrMentions, Bool.or_eq_true, beq_iff_eq]

theorem mentions_DecorateWith (k : String) (fs : Gslog.SFields)
    (a : Gslog.Attr)
    (h : Gslog.sfieldsMentions k (Gslog.DecorateWith fs a) = true) :
    Gslog.sfieldsMentions k fs = true ∨ Gslog.attrMentions k a = true := by
  have he : Gslog.decorateWithCore fs a.1 a.2 = Gslog.DecorateWith fs a :=
    decorateWith_eq fs a.1 a.2
  rw [← he] at h
  rcases mentions_decorateWithCore k fs a.1 a.2 h with h1 | h1 | h1
  · exact Or.inl h1
  · exact Or.inr ((attrMentions_iff k a).2 (Or.inl h1))
  · exact Or.inr ((attrMentions_iff k a).2 (Or.inr h1))

theorem mentions_decorateAll (k : String) (ra : Option Gslog.Mapper)
    (gs : List String) (hpres : Gslog.MapperPreserves ra k) :
    ∀ (attrs : Gslog.AttrList) (fs : Gslog.SFields),
      Gslog.attrsMention k attrs = false →
      Gslog.sfieldsMentions k (Gslog.decorateAll ra gs fs attrs) = true →
      Gslog.sfieldsMentions k fs = true
  | .nil, _, _, h => h
  | .cons key v rest, fs, hattr, h => by
      have hsplit : ¬ key = k ∧ Gslog.avalMentions k v = false ∧
          Gslog.attrsMention k rest = false := by
        have : ¬ Gslog.attrsMention k (.cons key v rest) = true := by
          rw [hattr]
          exact Bool.false_ne_true
        rw [attrsMention_cons] at this
        push_neg at this
        refine ⟨this.1, ?_, ?_⟩
        · cases hv : Gslog.avalMentions k v
          · rfl
          · exact absurd hv (this.2).1
        · cases hv : Gslog.attrsMention k rest
          · rfl
          · exact absurd hv (this.2).2
      have hmapped : Gslog.attrMentions k (Gslog.applyMapper ra gs (key, v)) = false := by
        refine hpres gs (key, v) ?_
        cases hv : Gslog.attrMentions k (key, v)
        · rfl
        · rcases (attrMentions_iff k (key, v)).1 hv with h2 | h2
          · exact absurd h2 hsplit.1
          · rw [hsplit.2.1] at h2
            exact Bool.noConfusion h2
      have h2 := mentions_decorateAll k ra gs hpres rest
        (Gslog.DecorateWith fs (Gslog.applyMapper ra gs (key, v))) hsplit.2.2 h
      rcases mentions_DecorateWith k fs _ h2 with h3 | h3
      · exact h3
      · rw [hmapped] at h3
        exact Bool.noConfusion h3

theorem svalMentions_lookup (k g : String) :
    ∀ (fs : Gslog.SFields) (v : Gslog.SValue),
      Gslog.lookupField g fs = some v →
      (g = k ∨ Gslog.svalMentions k v = true) →
      Gslog.sfieldsMentions k fs = true
  | .nil, _, hl, _ => by cases hl
  | .cons key w rest, v, hl, hd => by
      rw [sfieldsMentions_cons]
      by_cases h2 : key = g
      · rw [show Gslog.lookupField g (.cons key w rest) = some w
          from by simp [Gslog.lookupField, h2]] at hl
        cases hl
        rcases hd with hd | hd
        · exact Or.inl (h2.trans hd)
        · exact Or.inr (Or.inl hd)
      · rw [show Gslog.lookupField g (.cons key w rest) =
          Gslog.lookupField g rest from by simp [Gslog.lookupField, h2]] at hl
        exact Or.inr (Or.inr (svalMentions_lookup k g rest v hl hd))

theorem mentions_structOfLookup (k g : String) (fs : Gslog.SFields)
    (h : Gslog.sfieldsMentions k
      (Gslog.structFieldsOfOpt (Gslog.lookupField g fs)) = true) :
    Gslog.sfieldsMentions k fs = true := by
  cases hl : Gslog.lookupField g fs with
  | none =>
      rw [hl] at h
      exact Bool.noConfusion h
  | some v =>
      rw [hl] at h
      cases v with
      | object inner => exact svalMentions_lookup k g fs _ hl (Or.inr h)
      | null => exact Bool.noConfusion h
      | num f => exact Bool.noConfusion h
      | str s => exact Bool.noConfusion h
      | bool b => exact Bool.noConfusion h

theorem mentions_updateAtPath (k : String) :
    ∀ (path : List String) (fs : Gslog.SFields)
      (upd : Gslog.SFields → Gslog.SFields),
      (∀ inner, Gslog.sfieldsMentions k (upd inner) = true →
        Gslog.sfieldsMentions k inner = true) →
      Gslog.sfieldsMentions k (Gslog.updateAtPath fs path upd) = true →
      Gslog.sfieldsMentions k fs = true
  | [], fs, upd, hupd, h => hupd fs h
  | g :: rest, fs, upd, hupd, h => by
      cases hl : Gslog.lookupField g fs with
      | none =>
          rw [show Gslog.updateAtPath fs (g :: rest) upd = fs
            from by simp [Gslog.updateAtPath, hl]] at h
          exact h
      | some v =>
          cases v with
          | object inner =>
              rw [show Gslog.updateAtPath fs (g :: rest) upd =
                Gslog.setField fs g
                  (.object (Gslog.updateAtPath inner rest upd))
                from by simp [Gslog.updateAtPath, hl]] at h
              rcases sfieldsMentions_setField k g _ fs h with h1 | h1 | h1
              · exact svalMentions_lookup k g fs _ hl (Or.inl h1)
              · exact svalMentions_lookup k g fs _ hl
                  (Or.inr (mentions_updateAtPath k rest inner upd hupd h1))
              · exact h1
          | null =>
              rw [show Gslog.updateAtPath fs (g :: rest) upd = fs
                from by simp [Gslog.updateAtPath, hl]] at h
              exact h
          | num f =>
              rw [show Gslog.updateAtPath fs (g :: rest) upd = fs
                from by simp [Gslog.updateAtPath, hl]] at h
              exact h
          | str s =>
              rw [show Gslog.updateAtPath fs (g :: rest) upd = fs
                from by simp [Gslog.updateAtPath, hl]] at h
              exact h
          | bool b =>
              rw [show Gslog.updateAtPath fs (g :: rest) upd = fs
                from by simp [Gslog.updateAtPath, hl]] at h
              exact h

theorem mentions_setAndClean (k : String) :
    ∀ (path : List String) (fs : Gslog.SFields)
      (dec : Gslog.SFields → Gslog.SFields),
      ¬ k ∈ path →
      (∀ inner, Gslog.sfieldsMentions k (dec inner) = true →
        Gslog.sfieldsMentions k inner = true) →
      Gslog.sfieldsMentions k (Gslog.setAndClean path fs dec) = true →
      Gslog.sfieldsMentions k fs = true
  | [], fs, dec, _, hdec, h => hdec fs h
  | g :: rest, fs, dec, hk, hdec, h => by
      have hknr : ¬ k ∈ rest := fun hm => hk (List.mem_cons_of_mem _ hm)
      have hgk : ¬ g = k := fun he => hk (he ▸ List.mem_cons_self g rest)
      simp only [Gslog.setAndClean] at h
      by_cases hlen : Gslog.fieldsLen (Gslog.setAndClean rest
        (Gslog.structFieldsOfOpt (Gslog.lookupField g fs)) dec) = 0
      · rw [if_pos hlen] at h
        exact sfieldsMentions_deleteField k g fs h
      · rw [if_neg hlen] at h
        rcases sfieldsMentions_setField k g _ fs h with h1 | h1 | h1
        · exact absurd h1 hgk
        · exact mentions_structOfLookup k g fs
            (mentions_setAndClean k rest _ dec hknr hdec h1)
        · exact h1

theorem mentions_handlePayload (k : String) (h : Gslog.Handler)
    (r : Gslog.Record)
    (hpres : Gslog.MapperPreserves h.replaceAttr k)
    (hr : Gslog.attrsMention k r.attrs = false)
    (hmsg : ¬ k = "message")
    (hgroups : ¬ k ∈ h.groups)
    (hm : Gslog.sfieldsMentions k (Gslog.handlePayload h r) = true) :
    Gslog.sfieldsMentions k h.payload = true := by
  unfold Gslog.handlePayload at hm
  have hmsgattr : Gslog.attrMentions k
      (Gslog.applyMapper h.replaceAttr [] (Gslog.MessageKey, .str r.message)) = false := by
    refine hpres [] _ ?_
    cases hv : Gslog.attrMentions k (Gslog.MessageKey, .str r.message)
    · rfl
    · rcases (attrMentions_iff k _).1 hv with h2 | h2
      · exact absurd h2.symm hmsg
      · exact Bool.noConfusion h2
  rcases mentions_DecorateWith k _ _ hm with h1 | h1
  · exact mentions_setAndClean k h.groups h.payload _ hgroups
      (fun inner hi =>
        mentions_decorateAll k h.replaceAttr h.groups hpres r.attrs inner hr hi)
      h1
  · rw [hmsgattr] at h1
    exact Bool.noConfusion h1

/-- C5: copy-on-write isolation, stated observably.  Take any handler `H`
and any key `k` that occurs nowhere in `H`'s tree, open-group path, or the
record, is not the message key, and that the configured rewrite mapper and
augmentors cannot conjure up.  Then an entry emitted through
`H.WithAttrs(A)` for any attribute set `A` also free of `k` never contains
a field `k` — so for `H1 = H.WithAttrs(A)` and `H2 = H.WithAttrs(B)` with
`A ≠ B`, instantiating `k` at a key private to `B` shows `H1`'s entries
never contain `B`'s fields and vice versa — and an entry emitted through
`H` itself contains neither.  (Each derivation operates on its own copy of
the tree: in Go by `proto.Clone`, here by value semantics, so deriving
`H1` and `H2` cannot add fields to `H` or to each other.) -/
theorem c5_copy_on_write_isolation (h : Gslog.Handler) (A : Gslog.AttrList)
    (logSync : Gslog.Entry → Option String)
    (ctxLabels : List (String × String)) (r : Gslog.Record) (k : String)
    (hpres : Gslog.MapperPreserves h.replaceAttr k)
    (hpayload : Gslog.sfieldsMentions k h.payload = false)
    (hgroups : ¬ k ∈ h.groups)
    (hA : Gslog.attrsMention k A = false)
    (hr : Gslog.attrsMention k r.attrs = false)
    (hmsg : ¬ k = "message")
    (haug : ∀ b ∈ h.entryAugmentors, ∀ (gs : List String) (e : Gslog.Entry),
      (b gs e).payload = e.payload) :
    Gslog.sfieldsMentions k
      (Gslog.Handle (Gslog.WithAttrs h A) logSync ctxLabels r).entry.payload
        = false ∧
    Gslog.sfieldsMentions k
      (Gslog.Handle h logSync ctxLabels r).entry.payload = false := by
  constructor
  · cases hm : Gslog.sfieldsMentions k
      (Gslog.Handle (Gslog.WithAttrs h A) logSync ctxLabels r).entry.payload
    · rfl
    · exfalso
      rw [Handle_entry, handleEntry_payload (Gslog.WithAttrs h A) ctxLabels r haug]
        at hm
      have h1 := mentions_handlePayload k (Gslog.WithAttrs h A) r hpres hr hmsg
        hgroups hm
      have h2 := mentions_updateAtPath k h.groups h.payload _
        (fun inner hi =>
          mentions_decorateAll k h.replaceAttr h.groups hpres A inner hA hi) h1
      rw [hpayload] at h2
      exact Bool.noConfusion h2
  · cases hm : Gslog.sfieldsMentions k
      (Gslog.Handle h logSync ctxLabels r).entry.payload
    · rfl
    · exfalso
      rw [Handle_entry, handleEntry_payload h ctxLabels r haug] at hm
      have h1 := mentions_handlePayload k h r hpres hr hmsg hgroups hm
      rw [hpayload] at h1
      exact Bool.noConfusion h1

theorem c5_copy_on_write_isolation_witness :
    Gslog.sfieldsMentions "b"
      (Gslog.Handle
        (Gslog.WithAttrs (Gslog.NewGcpHandler 0 false [] none)
          (.cons "a" (.str "1") .nil))
        (fun _ => none) []
        ⟨⟨2024, 1, 1, 0, 0, 0, 0, 0⟩, "msg", 0, .cons "c" (.str "2") .nil,
          ⟨"f", 1, "fn"⟩⟩).entry.payload = false ∧
    Gslog.sfieldsMentions "b"
      (Gslog.Handle (Gslog.NewGcpHandler 0 false [] none)
        (fun _ => none) []
        ⟨⟨2024, 1, 1, 0, 0, 0, 0, 0⟩, "msg", 0, .cons "c" (.str "2") .nil,
          ⟨"f", 1, "fn"⟩⟩).entry.payload = false :=
  c5_copy_on_write_isolation (Gslog.NewGcpHandler 0 false [] none)
    (.cons "a" (.str "1") .nil) (fun _ => none) []
    ⟨⟨2024, 1, 1, 0, 0, 0, 0, 0⟩, "msg", 0, .cons "c" (.str "2") .nil,
      ⟨"f", 1, "fn"⟩⟩
    "b" (fun _ _ ha => ha) rfl (by decide) (by decide) (by decide) (by decide)
    (by intro b hb; cases hb)
